import Mathlib

/-!
Shallow embedding of the Day Slot Allocation Engine of `school_display`
(`src/dashboard/views.py`): the autofill planner (`day_autofill`), its
input-conversion helpers (`_to_int`, `_parse_hhmm_or_hhmmss`), and the
reindex operation (`day_reindex`).

Times of day and durations are modelled as natural numbers of seconds;
the loop cursor (a Python `datetime`) is an unbounded number of seconds
counted from midnight of the base date, and storing a cursor value as a
time-of-day (`datetime.time()`) takes it modulo 86400.  POST values are
`Option String` (`none` = key absent).
-/

deriving instance DecidableEq for Except

namespace School

/-- Error kinds of the validation pipeline, as named by the design
    document; in the source each corresponds to a distinct `ValueError`
    message (or, for `NoPeriodsConfigured`, an early error return). -/
inductive PlanError where
  | InvalidTimeFormat
  | NoPeriodsConfigured
  | DegeneratePeriodLength
  | BreakPositionOutOfRange
  | NegativeDuration
deriving DecidableEq

/-- Whitespace test used when stripping a string, as Python `str.strip()`
    does on ASCII input (the inputs of interest contain no exotic
    whitespace). -/
def isWs (c : Char) : Bool :=
  c = ' ' || c = '\t' || c = '\n' || c = '\r'

/-- Strip leading and trailing whitespace from a character list
    (models Python `str.strip()`). -/
def stripChars (l : List Char) : List Char :=
  ((l.dropWhile isWs).reverse.dropWhile isWs).reverse

/-- Decimal digit test. -/
def isDig (c : Char) : Bool :=
  '0' ≤ c && c ≤ '9'

/-- Numeric value of a list of decimal digits, most significant first. -/
def natOfDigits (l : List Char) : Nat :=
  l.foldl (fun a c => a * 10 + (c.toNat - 48)) 0

/-- Parse of a string by Python `int(...)`: optional surrounding
    whitespace, an optional sign, then a nonempty run of decimal digits;
    `none` models the `ValueError` raised on anything else.  (Python also
    accepts digit-grouping underscores and non-ASCII digits; no input in
    this development uses them.) -/
def pyIntParse (s : String) : Option Int :=
  match stripChars s.toList with
  | [] => none
  | '+' :: r => if r ≠ [] ∧ r.all isDig then some (natOfDigits r) else none
  | '-' :: r => if r ≠ [] ∧ r.all isDig then some (-(natOfDigits r : Int)) else none
  | l => if l.all isDig then some (natOfDigits l) else none

/-- Value computed by `_to_int` before its negativity check
    (views.py lines 121-126): the default when the value is `None` or
    the empty string, the parsed integer when parsing succeeds, and the
    default again when `int(...)` raises. -/
def pyVal (v : Option String) (d : Int) : Int :=
  match v with
  | none => d
  | some s => if s = "" then d else (pyIntParse s).getD d

/-- Model of `_to_int(val, default)` at the call sites of `day_autofill`
    (none passes `allow_negative=True`): after computing `pyVal`, a
    negative result raises `ValueError` — kind `NegativeDuration`
    (views.py lines 127-128). -/
def toInt (v : Option String) (d : Int) : Except PlanError Int :=
  if pyVal v d < 0 then .error .NegativeDuration else .ok (pyVal v d)

/-- Python `a or b` on two optional strings, as used for
    `request.POST.get("break_minutes") or request.POST.get("break_duration")`
    (views.py line 313): `None` and `""` are falsy and fall through. -/
def pyOr (a b : Option String) : Option String :=
  match a with
  | none => b
  | some s => if s = "" then b else some s

/-- Parse of one `strptime` time field (`%H`, `%M` or `%S`): one or two
    decimal digits, value at most `hi`. -/
def timeField (l : List Char) (hi : Nat) : Option Nat :=
  if l ≠ [] ∧ l.length ≤ 2 ∧ l.all isDig ∧ natOfDigits l ≤ hi
  then some (natOfDigits l) else none

/-- Split a character list on the colon character. -/
def splitColon : List Char → List (List Char)
  | [] => [[]]
  | ':' :: rest => [] :: splitColon rest
  | c :: rest =>
    match splitColon rest with
    | [] => [[c]]
    | g :: gs => (c :: g) :: gs

/-- Model of `_parse_hhmm_or_hhmmss` (views.py lines 108-118): strip the
    input, reject the empty string, then accept `HH:MM:SS` or `HH:MM`
    (tried in that order by `strptime`; the two patterns are mutually
    exclusive so the order does not matter).  The result is the time of
    day in seconds since midnight. -/
def parseHms (s : String) : Except PlanError Nat :=
  match splitColon (stripChars s.toList) with
  | [[]] => .error .InvalidTimeFormat
  | [h, m, sec] =>
    match timeField h 23, timeField m 59, timeField sec 59 with
    | some hv, some mv, some sv => .ok (hv * 3600 + mv * 60 + sv)
    | _, _, _ => .error .InvalidTimeFormat
  | [h, m] =>
    match timeField h 23, timeField m 59 with
    | some hv, some mv => .ok (hv * 3600 + mv * 60)
    | _, _ => .error .InvalidTimeFormat
  | _ => .error .InvalidTimeFormat

/-- Raw POST data of the autofill request; `none` models an absent key. -/
structure PostData where
  start_time : Option String
  period_minutes : Option String
  period_seconds : Option String
  gap_minutes : Option String
  gap_seconds : Option String
  break_after : Option String
  break_minutes : Option String
  break_duration : Option String
  break_seconds : Option String
deriving DecidableEq

/-- Validated parameters reaching the planning loop: start time and
    durations in seconds, the break position, and the raw requested
    break length in seconds (before minute-ceiling rounding). -/
structure Params where
  start_t : Nat
  p_len : Nat
  gap : Nat
  break_after : Nat
  brk_secs : Nat
deriving DecidableEq

/-- Conversion and validation phase of `day_autofill`
    (views.py lines 305-330), in the source's exact operation order:
    the seven `_to_int` conversions (each raising `NegativeDuration` on
    a negative value), then the time parse, then the checks
    `p_len.total_seconds() <= 0` (`DegeneratePeriodLength`),
    `not day.periods_count or day.periods_count <= 0`
    (`NoPeriodsConfigured`), and
    `break_after < 0 or break_after > day.periods_count`
    (`BreakPositionOutOfRange`; its first disjunct is unreachable since
    `_to_int` already rejected negatives).  `pc` is `day.periods_count`.
    Every computation here precedes the first store mutation. -/
def parseParams (post : PostData) (pc : Nat) : Except PlanError Params :=
  match toInt post.period_minutes 45 with
  | .error e => .error e
  | .ok pm =>
  match toInt post.period_seconds 0 with
  | .error e => .error e
  | .ok ps =>
  match toInt post.gap_minutes 0 with
  | .error e => .error e
  | .ok gm =>
  match toInt post.gap_seconds 0 with
  | .error e => .error e
  | .ok gs =>
  match toInt post.break_after 0 with
  | .error e => .error e
  | .ok ba =>
  match toInt (pyOr post.break_minutes post.break_duration) 0 with
  | .error e => .error e
  | .ok bm =>
  match toInt post.break_seconds 0 with
  | .error e => .error e
  | .ok bs =>
  match parseHms ((post.start_time).getD "07:00:00") with
  | .error e => .error e
  | .ok startT =>
  if pm * 60 + ps ≤ 0 then .error .DegeneratePeriodLength
  else if pc = 0 then .error .NoPeriodsConfigured
  else if ba < 0 ∨ (pc : Int) < ba then .error .BreakPositionOutOfRange
  else .ok ⟨startT, (pm * 60 + ps).toNat, (gm * 60 + gs).toNat, ba.toNat, (bm * 60 + bs).toNat⟩

/-- Rounding of the requested break length to whole minutes
    (views.py line 345):
    `int(math.ceil(max(0, brk.total_seconds()) / 60.0)) if brk.total_seconds() > 0 else 0`.
    The total is a non-negative integer number of seconds here (enforced
    by `_to_int`), so `max(0, ·)` is the identity and the ceiling of
    `s / 60` is `(s + 59) / 60` in natural division (`math.ceil` on the
    exact float `s / 60.0` agrees for every realistic magnitude). -/
def ceilMinutes (s : Nat) : Nat :=
  if 0 < s then (s + 59) / 60 else 0

/-- Slot of the transient plan, in construction order.  Times are
    absolute seconds from midnight of the base date, exactly the values
    the loop cursor (a `datetime`) passes through before storage
    truncates them to time-of-day. -/
inductive Slot where
  | period (index : Nat) (starts_at : Nat) (ends_at : Nat)
  | brk (starts_at : Nat) (duration_min : Nat)
deriving DecidableEq

/-- Start of the time interval covered by a slot. -/
def Slot.start : Slot → Nat
  | .period _ s _ => s
  | .brk s _ => s

/-- End of the time interval covered by a slot; a break covers its
    rounded duration, by which the loop advances the cursor. -/
def Slot.stop : Slot → Nat
  | .period _ _ e => e
  | .brk s d => s + d * 60

/-- Core planning loop of `day_autofill` (views.py lines 347-368):
    `k` periods remain, the next has 1-based number `i`, and the cursor
    stands at `cursor` seconds.  Each iteration emits the period
    `[cursor, cursor + pLen)`, then — when a break was requested
    (`bMin > 0`) and `i` equals `break_after` — a break starting at the
    period's end, advancing the cursor by the rounded break duration,
    and finally advances the cursor by the gap unconditionally. -/
def planLoop (pLen gap ba bMin : Nat) : Nat → Nat → Nat → List Slot
  | 0, _, _ => []
  | k + 1, i, cursor =>
    let e := cursor + pLen
    if 0 < bMin ∧ ba = i then
      .period i cursor e :: .brk e bMin ::
        planLoop pLen gap ba bMin k (i + 1) (e + bMin * 60 + gap)
    else
      .period i cursor e :: planLoop pLen gap ba bMin k (i + 1) (e + gap)

/-- Full plan of a day: the loop run for `n` periods from the start
    time, `i` counting from 1. -/
def build_plan (startT pLen gap n ba bMin : Nat) : List Slot :=
  planLoop pLen gap ba bMin n 1 startT

/-- Plan computed by `day_autofill` from its validated parameters:
    the break length is rounded to whole minutes before the loop. -/
def dayPlan (p : Params) (pc : Nat) : List Slot :=
  build_plan p.start_t p.p_len p.gap pc p.break_after (ceilMinutes p.brk_secs)

/-- Stored `Period` row: 1-based ordinal and times of day in seconds
    (nullable in the schema, hence `Option`; autofill always stores
    concrete times). -/
structure PRow where
  index : Nat
  starts_at : Option Nat
  ends_at : Option Nat
deriving DecidableEq

/-- Stored `Break` row: label, start time of day in seconds, and the
    duration in whole minutes. -/
structure BRow where
  label : String
  starts_at : Nat
  duration_min : Nat
deriving DecidableEq

/-- Stored rows of one `DaySchedule`: its `Period` and `Break`
    collections, each in persistent enumeration order. -/
structure DayStore where
  periods : List PRow
  breaks : List BRow
deriving DecidableEq

/-- Rows created by the autofill loop from a plan: each period slot
    becomes a `Period` row and each break slot a `Break` row labelled
    "فسحة" (views.py lines 351-364).  `datetime.time()` reduces the
    absolute cursor seconds modulo one day. -/
def storeOfPlan (plan : List Slot) : DayStore where
  periods := plan.filterMap fun s =>
    match s with
    | .period i a b => some ⟨i, some (a % 86400), some (b % 86400)⟩
    | .brk _ _ => none
  breaks := plan.filterMap fun s =>
    match s with
    | .period _ _ _ => none
    | .brk a d => some ⟨"فسحة", a % 86400, d⟩

/-- Model of the `day_autofill` view body for a POST request
    (views.py lines 305-376): run conversion and validation; on any
    raised error the store — untouched so far, since the first mutation
    (`periods_mgr.all().delete()`, line 340) comes after every check —
    is returned as it was; on success the old rows are deleted and the
    freshly planned rows inserted. -/
def day_autofill (post : PostData) (pc : Nat) (st : DayStore) :
    Except PlanError Unit × DayStore :=
  match parseParams post pc with
  | .error e => (.error e, st)
  | .ok p => (.ok (), storeOfPlan (dayPlan p pc))

/-- Sort key of a period row in `day_reindex` (views.py line 600):
    `(p.starts_at or time.min, p.ends_at or time.min)`, a missing time
    counting as midnight. -/
def sortKey (p : PRow) : Nat × Nat :=
  (p.starts_at.getD 0, p.ends_at.getD 0)

/-- Pairing of each list element with its 0-based position, as Python
    `enumerate` yields it. -/
def withPos : List PRow → Nat → List (Nat × PRow)
  | [], _ => []
  | p :: ps, n => (n, p) :: withPos ps (n + 1)

/-- Strict lexicographic order on (sort key, original position).
    Python's `list.sort` is stable, so the position a row occupies after
    sorting by `sortKey` is exactly its rank under this order: ties on
    the key are broken by the original position. -/
def keyLt : (Nat × Nat) × Nat → (Nat × Nat) × Nat → Bool
  | ((s1, e1), p1), ((s2, e2), p2) =>
    s1 < s2 || (s1 == s2 && (e1 < e2 || (e1 == e2 && p1 < p2)))

/-- New 1-based index `day_reindex` assigns to the row `p` sitting at
    position `pos`: one plus the number of rows strictly before it in
    the stable sort order, i.e. its 1-based position in the sorted list
    enumerated with `start=1` (views.py line 602). -/
def rank (tagged : List (Nat × PRow)) (pos : Nat) (p : PRow) : Nat :=
  1 + tagged.countP fun qr => keyLt (sortKey qr.2, qr.1) (sortKey p, pos)

/-- Period rows after `day_reindex` ran (views.py lines 598-605): every
    row is updated in place to carry its chronological 1-based index;
    the stored collection order is unchanged and so are all times. -/
def reindexRows (rows : List PRow) : List PRow :=
  (withPos rows 0).map fun pp => { pp.2 with index := rank (withPos rows 0) pp.1 pp.2 }

/-- Number of rows `day_reindex` writes: it saves a row only when the
    recomputed index differs from the stored one (views.py line 603). -/
def reindexWrites (rows : List PRow) : Nat :=
  (withPos rows 0).countP fun pp => pp.2.index != rank (withPos rows 0) pp.1 pp.2

/-- Model of the `day_reindex` view body on a day's store: the period
    rows are renumbered, the break rows are never touched; the write
    count is returned alongside. -/
def day_reindex (st : DayStore) : DayStore × Nat :=
  (⟨reindexRows st.periods, st.breaks⟩, reindexWrites st.periods)

/-! Facts about the conversion and validation phase. -/

theorem toInt_ok_iff (v : Option String) (d x : Int) :
    toInt v d = .ok x ↔ 0 ≤ pyVal v d ∧ x = pyVal v d := by
  unfold toInt
  split
  · constructor
    · intro h; exact absurd h (by simp)
    · intro ⟨h1, _⟩; omega
  · constructor
    · intro h; injection h with h; exact ⟨by omega, h.symm⟩
    · intro ⟨_, h2⟩; rw [h2]

theorem parseParams_ok (post : PostData) (pc : Nat) (p : Params)
    (h : parseParams post pc = .ok p) :
    0 < p.p_len ∧ pc ≠ 0 ∧ p.break_after ≤ pc ∧
    p.p_len = (pyVal post.period_minutes 45 * 60 + pyVal post.period_seconds 0).toNat ∧
    p.gap = (pyVal post.gap_minutes 0 * 60 + pyVal post.gap_seconds 0).toNat ∧
    p.brk_secs = (pyVal (pyOr post.break_minutes post.break_duration) 0 * 60 +
      pyVal post.break_seconds 0).toNat ∧
    parseHms ((post.start_time).getD "07:00:00") = .ok p.start_t := by
  unfold parseParams at h
  repeat' split at h
  all_goals try contradiction
  injection h with h2
  subst h2
  simp only [toInt_ok_iff] at *
  refine ⟨?_, ?_, ?_, ?_, ?_, ?_, ?_⟩ <;> simp_all

/-! Facts about the planning loop. -/

theorem planLoop_start_le (pLen gap ba bMin : Nat) :
    ∀ k i c, ∀ s ∈ planLoop pLen gap ba bMin k i c, c ≤ s.start := by
  intro k
  induction k with
  | zero => intro i c s hs; simp [planLoop] at hs
  | succ k ih =>
    intro i c s hs
    simp only [planLoop] at hs
    split at hs
    · rcases List.mem_cons.mp hs with rfl | hs2
      · simp [Slot.start]
      · rcases List.mem_cons.mp hs2 with rfl | hs3
        · simp [Slot.start]
        · have := ih (i + 1) (c + pLen + bMin * 60 + gap) s hs3
          omega
    · rcases List.mem_cons.mp hs with rfl | hs2
      · simp [Slot.start]
      · have := ih (i + 1) (c + pLen + gap) s hs2
        omega

theorem planLoop_pos (pLen gap ba bMin : Nat) (hp : 0 < pLen) :
    ∀ k i c, ∀ s ∈ planLoop pLen gap ba bMin k i c, s.start < s.stop := by
  intro k
  induction k with
  | zero => intro i c s hs; simp [planLoop] at hs
  | succ k ih =>
    intro i c s hs
    simp only [planLoop] at hs
    split at hs
    · rcases List.mem_cons.mp hs with rfl | hs2
      · simp [Slot.start, Slot.stop]; omega
      · rcases List.mem_cons.mp hs2 with rfl | hs3
        · simp [Slot.start, Slot.stop]; omega
        · exact ih _ _ s hs3
    · rcases List.mem_cons.mp hs with rfl | hs2
      · simp [Slot.start, Slot.stop]; omega
      · exact ih _ _ s hs2

theorem planLoop_sep (pLen gap ba bMin : Nat) :
    ∀ k i c, List.Pairwise (fun a b => a.stop ≤ b.start) (planLoop pLen gap ba bMin k i c) := by
  intro k
  induction k with
  | zero => intro i c; simp [planLoop]
  | succ k ih =>
    intro i c
    simp only [planLoop]
    split
    · refine List.Pairwise.cons ?_ (List.Pairwise.cons ?_ (ih _ _))
      · intro b hb
        rcases List.mem_cons.mp hb with rfl | hb2
        · simp [Slot.start, Slot.stop]
        · have := planLoop_start_le pLen gap ba bMin k (i + 1) (c + pLen + bMin * 60 + gap) b hb2
          simp [Slot.stop]
          omega
      · intro b hb
        have := planLoop_start_le pLen gap ba bMin k (i + 1) (c + pLen + bMin * 60 + gap) b hb
        simp [Slot.stop]
        omega
    · refine List.Pairwise.cons ?_ (ih _ _)
      · intro b hb
        have := planLoop_start_le pLen gap ba bMin k (i + 1) (c + pLen + gap) b hb
        simp [Slot.stop]
        omega

theorem planLoop_brk_dur (pLen gap ba bMin : Nat) :
    ∀ k i c b d, Slot.brk b d ∈ planLoop pLen gap ba bMin k i c → d = bMin := by
  intro k
  induction k with
  | zero => intro i c b d hs; simp [planLoop] at hs
  | succ k ih =>
    intro i c b d hs
    simp only [planLoop] at hs
    split at hs
    · rcases List.mem_cons.mp hs with h | hs2
      · exact absurd h (by simp)
      · rcases List.mem_cons.mp hs2 with h | hs3
        · simp_all
        · exact ih _ _ _ _ hs3
    · rcases List.mem_cons.mp hs with h | hs2
      · exact absurd h (by simp)
      · exact ih _ _ _ _ hs2

/-! Concrete inputs reused by examples and witnesses. -/

/-- POST data of the end-to-end example of the design document:
    start 07:00:00, six periods of 45 minutes, no gap, a 15-minute break
    after period 3. -/
def examplePost : PostData :=
  ⟨some "07:00:00", some "45", some "0", some "0", some "0", some "3", some "15", none, some "0"⟩

/-- Validated parameters the example POST converts to: 07:00:00 is
    25200 s, a period is 2700 s, and the requested break is 900 s. -/
def exampleParams : Params := ⟨25200, 2700, 0, 3, 900⟩

/-- POST data requesting a zero-length period
    (`period_minutes=0, period_seconds=0`). -/
def degeneratePost : PostData :=
  ⟨none, some "0", some "0", none, none, none, none, none, none⟩

/-- Arbitrary prior store content used to observe (non-)mutation. -/
def sampleStore : DayStore :=
  ⟨[⟨1, some 100, some 200⟩, ⟨2, some 300, some 400⟩], [⟨"قديم", 500, 5⟩]⟩

/-- C1: for every parameter set accepted by validation (which forces a
    positive period length, a nonzero period count, a break position in
    range and non-negative durations), any two slots of the produced
    plan, taken in construction order, have non-intersecting
    `[start, stop)` intervals, and the start times strictly increase in
    construction order. -/
theorem autofill_plan_no_overlap (post : PostData) (pc : Nat) (p : Params)
    (h : parseParams post pc = .ok p) :
    List.Pairwise
      (fun a b => (∀ t : Nat, ¬((Slot.start a ≤ t ∧ t < Slot.stop a) ∧
          (Slot.start b ≤ t ∧ t < Slot.stop b))) ∧ Slot.start a < Slot.start b)
      (dayPlan p pc) := by
  have hp : 0 < p.p_len := (parseParams_ok post pc p h).1
  have hpos := planLoop_pos p.p_len p.gap p.break_after (ceilMinutes p.brk_secs) hp pc 1 p.start_t
  have hsep := planLoop_sep p.p_len p.gap p.break_after (ceilMinutes p.brk_secs) pc 1 p.start_t
  simp only [dayPlan, build_plan]
  refine hsep.imp_of_mem ?_
  intro a b ha hb hab
  have h1 := hpos a ha
  have h2 := hpos b hb
  exact ⟨fun t ht => by omega, by omega⟩

theorem autofill_plan_no_overlap_witness :
    parseParams examplePost 6 = .ok exampleParams ∧
    List.Pairwise
      (fun a b => (∀ t : Nat, ¬((Slot.start a ≤ t ∧ t < Slot.stop a) ∧
          (Slot.start b ≤ t ∧ t < Slot.stop b))) ∧ Slot.start a < Slot.start b)
      (dayPlan exampleParams 6) :=
  ⟨by decide, autofill_plan_no_overlap examplePost 6 exampleParams (by decide)⟩

/-- C3: whenever conversion or validation fails — degenerate period
    length, zero period count, break position out of range, negative
    value, or an unparseable time — `day_autofill` raises before its
    first store operation, so the day's stored rows are returned
    exactly as they were. -/
theorem autofill_invalid_leaves_store (post : PostData) (pc : Nat) (st : DayStore)
    (e : PlanError) (h : (day_autofill post pc st).1 = .error e) :
    (day_autofill post pc st).2 = st := by
  unfold day_autofill at h ⊢
  split at h <;> simp_all

theorem autofill_invalid_leaves_store_witness :
    (day_autofill degeneratePost 6 sampleStore).1 = .error .DegeneratePeriodLength ∧
    (day_autofill degeneratePost 6 sampleStore).2 = sampleStore :=
  ⟨by decide,
   autofill_invalid_leaves_store degeneratePost 6 sampleStore .DegeneratePeriodLength (by decide)⟩

/-- C4: the stored break duration is the ceiling of the requested
    duration in minutes (`ceilMinutes 0 = 0`, `ceilMinutes 90 = 2`,
    and in general `s ≤ 60 * ceilMinutes s < s + 60`); every break slot
    of a day plan carries exactly that rounded duration; and every slot
    after a break starts no earlier than the break start plus the
    rounded duration — the cursor advances by the rounded value. -/
theorem break_rounded_up (s : Nat) (p : Params) (pc : Nat) :
    ceilMinutes 0 = 0 ∧ ceilMinutes 90 = 2 ∧
    s ≤ 60 * ceilMinutes s ∧ 60 * ceilMinutes s < s + 60 ∧
    (∀ b d, Slot.brk b d ∈ dayPlan p pc → d = ceilMinutes p.brk_secs) ∧
    List.Pairwise
      (fun a b => ∀ bs d, a = Slot.brk bs d → bs + d * 60 ≤ Slot.start b)
      (dayPlan p pc) := by
  refine ⟨by decide, by decide, ?_, ?_, ?_, ?_⟩
  · unfold ceilMinutes; split <;> omega
  · unfold ceilMinutes; split <;> omega
  · intro b d hb
    exact planLoop_brk_dur p.p_len p.gap p.break_after (ceilMinutes p.brk_secs) pc 1 p.start_t b d hb
  · have hsep := planLoop_sep p.p_len p.gap p.break_after (ceilMinutes p.brk_secs) pc 1 p.start_t
    refine hsep.imp ?_
    intro a b hab bs d ha
    subst ha
    simpa [Slot.stop] using hab

theorem break_rounded_up_witness : (15 : Nat) = ceilMinutes 900 :=
  (break_rounded_up 90 exampleParams 6).2.2.2.2.1 33300 15 (by decide)

/-- C5: the end-to-end example — start 07:00:00, six periods of
    45 minutes, no gap, a 15-minute break after period 3 — replaces any
    prior content with exactly the periods 07:00-07:45, 07:45-08:30,
    08:30-09:15, one 15-minute break at 09:15, then 09:30-10:15,
    10:15-11:00, 11:00-11:45 (times in seconds of day). -/
theorem autofill_example_exact :
    day_autofill examplePost 6 sampleStore =
      (.ok (), ⟨[⟨1, some 25200, some 27900⟩, ⟨2, some 27900, some 30600⟩,
                 ⟨3, some 30600, some 33300⟩, ⟨4, some 34200, some 36900⟩,
                 ⟨5, some 36900, some 39600⟩, ⟨6, some 39600, some 42300⟩],
                [⟨"فسحة", 33300, 15⟩]⟩) := by decide

/-! Shape of the plan: break multiplicity and the no-break closed form. -/

/-- Number of break slots in a plan. -/
def countBreaks (l : List Slot) : Nat :=
  l.countP fun s => match s with | .brk _ _ => true | .period _ _ _ => false

/-- Number of period slots in a plan. -/
def countPeriods (l : List Slot) : Nat :=
  l.countP fun s => match s with | .brk _ _ => false | .period _ _ _ => true

theorem countPeriods_cons_period (i a b : Nat) (l : List Slot) :
    countPeriods (Slot.period i a b :: l) = countPeriods l + 1 := by
  simp [countPeriods, List.countP_cons]

theorem countPeriods_cons_brk (a d : Nat) (l : List Slot) :
    countPeriods (Slot.brk a d :: l) = countPeriods l := by
  simp [countPeriods, List.countP_cons]

theorem countBreaks_cons_period (i a b : Nat) (l : List Slot) :
    countBreaks (Slot.period i a b :: l) = countBreaks l := by
  simp [countBreaks, List.countP_cons]

theorem countBreaks_cons_brk (a d : Nat) (l : List Slot) :
    countBreaks (Slot.brk a d :: l) = countBreaks l + 1 := by
  simp [countBreaks, List.countP_cons]

theorem countPeriods_planLoop (pLen gap ba bMin : Nat) :
    ∀ k i c, countPeriods (planLoop pLen gap ba bMin k i c) = k := by
  intro k
  induction k with
  | zero => intro i c; simp [planLoop, countPeriods]
  | succ k ih =>
    intro i c
    simp only [planLoop]
    split
    · rw [countPeriods_cons_period, countPeriods_cons_brk, ih (i + 1)]
    · rw [countPeriods_cons_period, ih (i + 1)]

theorem countBreaks_planLoop (pLen gap ba bMin : Nat) :
    ∀ k i c, countBreaks (planLoop pLen gap ba bMin k i c) =
      if 0 < bMin ∧ i ≤ ba ∧ ba < i + k then 1 else 0 := by
  intro k
  induction k with
  | zero => intro i c; rw [if_neg (by omega)]; simp [planLoop, countBreaks]
  | succ k ih =>
    intro i c
    simp only [planLoop]
    split
    · next hcond =>
      rw [countBreaks_cons_period, countBreaks_cons_brk, ih (i + 1)]
      rw [if_neg (by omega), if_pos (by omega)]
    · next hcond =>
      rw [countBreaks_cons_period, ih (i + 1)]
      by_cases hc : 0 < bMin ∧ i + 1 ≤ ba ∧ ba < i + 1 + k
      · rw [if_pos hc, if_pos (by omega)]
      · rw [if_neg hc, if_neg (by omega)]

theorem planLoop_no_break (pLen gap ba bMin : Nat) :
    ∀ k i c, (bMin = 0 ∨ (ba = 0 ∧ 1 ≤ i)) →
      planLoop pLen gap ba bMin k i c =
        (List.range k).map (fun j =>
          Slot.period (i + j) (c + j * (pLen + gap)) (c + j * (pLen + gap) + pLen)) := by
  intro k
  induction k with
  | zero => intro i c hk; simp [planLoop]
  | succ k ih =>
    intro i c hk
    have hcond : ¬(0 < bMin ∧ ba = i) := by omega
    simp only [planLoop, if_neg hcond]
    rw [ih (i + 1) (c + pLen + gap) (by omega)]
    rw [List.range_succ_eq_map]
    simp only [List.map_cons, List.map_map]
    congr 1
    · simp
    · refine List.map_congr_left ?_
      intro j hj
      simp only [Function.comp]
      congr 1 <;> (simp only [Nat.succ_eq_add_one]; ring)

theorem planLoop_gap_chain (pLen gap ba bMin : Nat) (h : bMin = 0 ∨ ba = 0) :
    ∀ k i c, 1 ≤ i →
      List.Chain' (fun a b => Slot.start b = Slot.stop a + gap)
        (planLoop pLen gap ba bMin k i c) := by
  intro k
  induction k with
  | zero => intro i c hi; simp [planLoop]
  | succ k ih =>
    intro i c hi
    have hcond : ¬(0 < bMin ∧ ba = i) := by omega
    simp only [planLoop, if_neg hcond]
    cases k with
    | zero => simp [planLoop]
    | succ k2 =>
      have hcond2 : ¬(0 < bMin ∧ ba = i + 1) := by omega
      have htail := ih (i + 1) (c + pLen + gap) (by omega)
      simp only [planLoop, if_neg hcond2] at htail ⊢
      exact List.chain'_cons.mpr ⟨by simp [Slot.start, Slot.stop], htail⟩

theorem ceilMinutes_pos_iff (s : Nat) : 0 < ceilMinutes s ↔ 0 < s := by
  unfold ceilMinutes; split <;> omega

/-- C8: a day plan holds at most one break slot, and exactly one
    precisely when `break_after` lies in `[1, periods_count]` and the
    requested break duration is positive; with `break_after = 0` or a
    zero duration the plan is exactly `periods_count` period slots and
    no break, consecutive periods separated by exactly the gap (added
    unconditionally every iteration). -/
theorem break_emission_policy (startT pLen gap n ba brkS : Nat) :
    countBreaks (build_plan startT pLen gap n ba (ceilMinutes brkS)) ≤ 1 ∧
    (countBreaks (build_plan startT pLen gap n ba (ceilMinutes brkS)) = 1 ↔
      1 ≤ ba ∧ ba ≤ n ∧ 0 < brkS) ∧
    countPeriods (build_plan startT pLen gap n ba (ceilMinutes brkS)) = n ∧
    ((ba = 0 ∨ brkS = 0) →
      build_plan startT pLen gap n ba (ceilMinutes brkS) =
        (List.range n).map (fun j =>
          Slot.period (1 + j) (startT + j * (pLen + gap)) (startT + j * (pLen + gap) + pLen)) ∧
      countBreaks (build_plan startT pLen gap n ba (ceilMinutes brkS)) = 0 ∧
      List.Chain' (fun a b => Slot.start b = Slot.stop a + gap)
        (build_plan startT pLen gap n ba (ceilMinutes brkS))) := by
  unfold build_plan
  have hpos := ceilMinutes_pos_iff brkS
  rw [countBreaks_planLoop]
  refine ⟨by split <;> omega, ?_, countPeriods_planLoop pLen gap ba (ceilMinutes brkS) n 1 startT, ?_⟩
  · by_cases hP : 0 < ceilMinutes brkS ∧ 1 ≤ ba ∧ ba < 1 + n
    · rw [if_pos hP]
      constructor
      · intro _; omega
      · intro _; rfl
    · rw [if_neg hP]
      constructor
      · intro h0; omega
      · intro hQ; omega
  · intro hnb
    have hbm : ceilMinutes brkS = 0 ∨ (ba = 0 ∧ 1 ≤ 1) := by
      rcases hnb with h | h
      · exact Or.inr ⟨h, le_refl 1⟩
      · subst h; exact Or.inl rfl
    refine ⟨planLoop_no_break pLen gap ba (ceilMinutes brkS) n 1 startT hbm,
      by rw [if_neg (by omega)], ?_⟩
    refine planLoop_gap_chain pLen gap ba (ceilMinutes brkS) ?_ n 1 startT (le_refl 1)
    omega

theorem break_emission_policy_witness :
    build_plan 100 10 5 2 0 (ceilMinutes 70) =
      [Slot.period 1 100 110, Slot.period 2 115 125] :=
  by simpa using ((break_emission_policy 100 10 5 2 0 70).2.2.2 (Or.inl rfl)).1

/-! Order of the validation checks. -/

/-- POST data with every key absent: all numeric fields default
    (`period_minutes` to 45, the rest to 0) and the start time defaults
    to "07:00:00". -/
def emptyPost : PostData := ⟨none, none, none, none, none, none, none, none, none⟩

/-- Condition under which one of the seven `_to_int` conversions of
    `day_autofill` raises: some numeric field carries a negative value
    after defaulting. -/
def anyNegative (post : PostData) : Prop :=
  pyVal post.period_minutes 45 < 0 ∨ pyVal post.period_seconds 0 < 0 ∨
  pyVal post.gap_minutes 0 < 0 ∨ pyVal post.gap_seconds 0 < 0 ∨
  pyVal post.break_after 0 < 0 ∨
  pyVal (pyOr post.break_minutes post.break_duration) 0 < 0 ∨
  pyVal post.break_seconds 0 < 0

theorem parseParams_parse_err (post : PostData) (pc : Nat) (hneg : ¬anyNegative post)
    (e : PlanError) (hparse : parseHms ((post.start_time).getD "07:00:00") = .error e) :
    parseParams post pc = .error e := by
  unfold anyNegative at hneg
  push_neg at hneg
  obtain ⟨n1, n2, n3, n4, n5, n6, n7⟩ := hneg
  have m1 : toInt post.period_minutes 45 = .ok (pyVal post.period_minutes 45) := by
    unfold toInt; rw [if_neg (by omega)]
  have m2 : toInt post.period_seconds 0 = .ok (pyVal post.period_seconds 0) := by
    unfold toInt; rw [if_neg (by omega)]
  have m3 : toInt post.gap_minutes 0 = .ok (pyVal post.gap_minutes 0) := by
    unfold toInt; rw [if_neg (by omega)]
  have m4 : toInt post.gap_seconds 0 = .ok (pyVal post.gap_seconds 0) := by
    unfold toInt; rw [if_neg (by omega)]
  have m5 : toInt post.break_after 0 = .ok (pyVal post.break_after 0) := by
    unfold toInt; rw [if_neg (by omega)]
  have m6 : toInt (pyOr post.break_minutes post.break_duration) 0 =
      .ok (pyVal (pyOr post.break_minutes post.break_duration) 0) := by
    unfold toInt; rw [if_neg (by omega)]
  have m7 : toInt post.break_seconds 0 = .ok (pyVal post.break_seconds 0) := by
    unfold toInt; rw [if_neg (by omega)]
  unfold parseParams
  rw [m1, m2, m3, m4, m5, m6, m7, hparse]

theorem parseParams_parse_ok (post : PostData) (pc : Nat) (hneg : ¬anyNegative post)
    (t : Nat) (hparse : parseHms ((post.start_time).getD "07:00:00") = .ok t) :
    parseParams post pc =
      (if pyVal post.period_minutes 45 * 60 + pyVal post.period_seconds 0 ≤ 0 then
        .error .DegeneratePeriodLength
      else if pc = 0 then .error .NoPeriodsConfigured
      else if pyVal post.break_after 0 < 0 ∨ (pc : Int) < pyVal post.break_after 0 then
        .error .BreakPositionOutOfRange
      else .ok ⟨t,
        (pyVal post.period_minutes 45 * 60 + pyVal post.period_seconds 0).toNat,
        (pyVal post.gap_minutes 0 * 60 + pyVal post.gap_seconds 0).toNat,
        (pyVal post.break_after 0).toNat,
        (pyVal (pyOr post.break_minutes post.break_duration) 0 * 60 +
          pyVal post.break_seconds 0).toNat⟩) := by
  unfold anyNegative at hneg
  push_neg at hneg
  obtain ⟨n1, n2, n3, n4, n5, n6, n7⟩ := hneg
  have m1 : toInt post.period_minutes 45 = .ok (pyVal post.period_minutes 45) := by
    unfold toInt; rw [if_neg (by omega)]
  have m2 : toInt post.period_seconds 0 = .ok (pyVal post.period_seconds 0) := by
    unfold toInt; rw [if_neg (by omega)]
  have m3 : toInt post.gap_minutes 0 = .ok (pyVal post.gap_minutes 0) := by
    unfold toInt; rw [if_neg (by omega)]
  have m4 : toInt post.gap_seconds 0 = .ok (pyVal post.gap_seconds 0) := by
    unfold toInt; rw [if_neg (by omega)]
  have m5 : toInt post.break_after 0 = .ok (pyVal post.break_after 0) := by
    unfold toInt; rw [if_neg (by omega)]
  have m6 : toInt (pyOr post.break_minutes post.break_duration) 0 =
      .ok (pyVal (pyOr post.break_minutes post.break_duration) 0) := by
    unfold toInt; rw [if_neg (by omega)]
  have m7 : toInt post.break_seconds 0 = .ok (pyVal post.break_seconds 0) := by
    unfold toInt; rw [if_neg (by omega)]
  unfold parseParams
  rw [m1, m2, m3, m4, m5, m6, m7, hparse]

/-- C7 counterexample: the request `period_minutes=0, period_seconds=0`
    against a day with `periods_count = 0` violates both the period
    count check and the period length check; the claimed order would
    report `NoPeriodsConfigured` (its earliest), but the code reports
    `DegeneratePeriodLength`. -/
theorem validation_order_counterexample :
    parseParams degeneratePost 0 = .error .DegeneratePeriodLength ∧
    parseParams degeneratePost 0 ≠ .error .NoPeriodsConfigured :=
  ⟨by decide, by decide⟩

/-- C7 amended: validation fails fast in the source's order — first any
    negative numeric value (`NegativeDuration`, raised inside the
    integer conversions), then the time parse (`InvalidTimeFormat`),
    then positive period length (`DegeneratePeriodLength`), then nonzero
    period count (`NoPeriodsConfigured`), and last the break position
    upper bound (`BreakPositionOutOfRange`); for any input violating
    several checks the reported error is the earliest in this order. -/
theorem validation_order_actual (post : PostData) (pc : Nat) :
    (anyNegative post → parseParams post pc = .error .NegativeDuration) ∧
    (¬anyNegative post →
      parseHms ((post.start_time).getD "07:00:00") = .error .InvalidTimeFormat →
      parseParams post pc = .error .InvalidTimeFormat) ∧
    (∀ t, ¬anyNegative post →
      parseHms ((post.start_time).getD "07:00:00") = .ok t →
      pyVal post.period_minutes 45 * 60 + pyVal post.period_seconds 0 ≤ 0 →
      parseParams post pc = .error .DegeneratePeriodLength) ∧
    (∀ t, ¬anyNegative post →
      parseHms ((post.start_time).getD "07:00:00") = .ok t →
      0 < pyVal post.period_minutes 45 * 60 + pyVal post.period_seconds 0 →
      pc = 0 →
      parseParams post pc = .error .NoPeriodsConfigured) ∧
    (∀ t, ¬anyNegative post →
      parseHms ((post.start_time).getD "07:00:00") = .ok t →
      0 < pyVal post.period_minutes 45 * 60 + pyVal post.period_seconds 0 →
      pc ≠ 0 → (pc : Int) < pyVal post.break_after 0 →
      parseParams post pc = .error .BreakPositionOutOfRange) := by
  have e1 : ∀ (v : Option String) (d : Int), ¬pyVal v d < 0 →
      toInt v d = .ok (pyVal v d) := by
    intro v d h; unfold toInt; rw [if_neg h]
  have e2 : ∀ (v : Option String) (d : Int), pyVal v d < 0 →
      toInt v d = .error .NegativeDuration := by
    intro v d h; unfold toInt; rw [if_pos h]
  refine ⟨?_, ?_, ?_, ?_, ?_⟩
  · intro hneg
    unfold anyNegative at hneg
    unfold parseParams
    by_cases h1 : pyVal post.period_minutes 45 < 0
    · rw [e2 _ _ h1]
    · rw [e1 _ _ h1]
      by_cases h2 : pyVal post.period_seconds 0 < 0
      · rw [e2 _ _ h2]
      · rw [e1 _ _ h2]
        by_cases h3 : pyVal post.gap_minutes 0 < 0
        · rw [e2 _ _ h3]
        · rw [e1 _ _ h3]
          by_cases h4 : pyVal post.gap_seconds 0 < 0
          · rw [e2 _ _ h4]
          · rw [e1 _ _ h4]
            by_cases h5 : pyVal post.break_after 0 < 0
            · rw [e2 _ _ h5]
            · rw [e1 _ _ h5]
              by_cases h6 : pyVal (pyOr post.break_minutes post.break_duration) 0 < 0
              · rw [e2 _ _ h6]
              · rw [e1 _ _ h6]
                by_cases h7 : pyVal post.break_seconds 0 < 0
                · rw [e2 _ _ h7]
                · exfalso
                  rcases hneg with h | h | h | h | h | h | h <;> omega
  · intro hneg hparse
    exact parseParams_parse_err post pc hneg _ hparse
  · intro t hneg hparse hle
    rw [parseParams_parse_ok post pc hneg t hparse]
    rw [if_pos hle]
  · intro t hneg hparse hgt hpc
    rw [parseParams_parse_ok post pc hneg t hparse]
    rw [if_neg (by omega), if_pos hpc]
  · intro t hneg hparse hgt hpc hba
    rw [parseParams_parse_ok post pc hneg t hparse]
    rw [if_neg (by omega), if_neg hpc, if_pos (Or.inr hba)]

theorem validation_order_actual_witness :
    parseParams emptyPost 0 = .error .NoPeriodsConfigured :=
  (validation_order_actual emptyPost 0).2.2.2.1 25200
    (by unfold anyNegative; decide) (by decide) (by decide) rfl

/-! Duration composition and conversion defaults. -/

/-- POST data with `period_minutes` absent and `period_seconds` zero. -/
def missingMinutesPost : PostData :=
  ⟨none, none, some "0", none, none, none, none, none, none⟩

/-- Same request with `period_minutes` explicitly `"0"`. -/
def zeroMinutesPost : PostData :=
  ⟨none, some "0", some "0", none, none, none, none, none, none⟩

/-- C9 counterexample: if a missing duration component behaved as 0, a
    request with `period_minutes` absent and `period_seconds=0` would
    be rejected as degenerate exactly like the explicit-zero request;
    instead the missing `period_minutes` defaults to 45 and the request
    succeeds with a 2700-second (45-minute) period. -/
theorem missing_component_counterexample :
    parseParams missingMinutesPost 1 ≠ parseParams zeroMinutesPost 1 ∧
    parseParams missingMinutesPost 1 = .ok ⟨25200, 2700, 0, 0, 0⟩ ∧
    parseParams zeroMinutesPost 1 = .error .DegeneratePeriodLength :=
  ⟨by decide, by decide, by decide⟩

/-- C9 amended: each duration is composed additively from its minutes
    and seconds components (`minutes * 60 + seconds`), and an absent or
    blank component behaves as that parameter's default — 0 for every
    component except `period_minutes`, whose default is 45. -/
theorem duration_composition_defaults (post : PostData) (pc : Nat) (p : Params)
    (h : parseParams post pc = .ok p) :
    (∀ d : Int, pyVal none d = d ∧ pyVal (some "") d = d) ∧
    p.p_len = (pyVal post.period_minutes 45 * 60 + pyVal post.period_seconds 0).toNat ∧
    p.gap = (pyVal post.gap_minutes 0 * 60 + pyVal post.gap_seconds 0).toNat ∧
    p.brk_secs = (pyVal (pyOr post.break_minutes post.break_duration) 0 * 60 +
      pyVal post.break_seconds 0).toNat := by
  have hinv := parseParams_ok post pc p h
  exact ⟨fun d => ⟨rfl, by simp [pyVal]⟩,
    hinv.2.2.2.1, hinv.2.2.2.2.1, hinv.2.2.2.2.2.1⟩

theorem duration_composition_defaults_witness :
    (2700 : Nat) = (pyVal (some "45") 45 * 60 + pyVal (some "0") 0).toNat :=
  (duration_composition_defaults examplePost 6 exampleParams (by decide)).2.1

/-- C10: a numeric value that is present but unparseable as an integer
    is silently replaced by the parameter's default: the conversion
    helper returns the default with no error (the defaults at every
    call site are non-negative), and a request carrying
    `period_minutes = "abc"` is processed exactly like one with the key
    absent. -/
theorem unparseable_numeric_defaults (s : String) (d : Int) (post : PostData) (pc : Nat)
    (h1 : pyIntParse s = none) (h2 : s ≠ "") (h3 : 0 ≤ d) :
    toInt (some s) d = .ok d ∧
    parseParams { post with period_minutes := some s } pc =
      parseParams { post with period_minutes := none } pc := by
  have hv : pyVal (some s) d = d := by simp [pyVal, h1, h2]
  constructor
  · unfold toInt
    rw [hv, if_neg (by omega)]
  · have he : toInt (some s) 45 = toInt (none : Option String) 45 := by
      unfold toInt
      rw [show pyVal (some s) 45 = 45 by simp [pyVal, h1, h2]]
      rfl
    obtain ⟨a1, a2, a3, a4, a5, a6, a7, a8, a9⟩ := post
    unfold parseParams
    simp only [he]

theorem unparseable_numeric_defaults_witness :
    toInt (some "abc") 45 = .ok 45 ∧
    parseParams { emptyPost with period_minutes := some "abc" } 6 =
      parseParams { emptyPost with period_minutes := none } 6 :=
  unparseable_numeric_defaults "abc" 45 emptyPost 6 (by decide) (by decide) (by decide)

/-! Facts about `day_reindex`. -/

theorem sortKey_update (p : PRow) (n : Nat) : sortKey { p with index := n } = sortKey p := rfl

theorem withPos_map (f : Nat × PRow → PRow) :
    ∀ (l : List PRow) (n : Nat),
      withPos ((withPos l n).map f) n = (withPos l n).map (fun ip => (ip.1, f ip)) := by
  intro l
  induction l with
  | nil => intro n; simp [withPos]
  | cons p ps ih => intro n; simp [withPos, List.map_cons, ih (n + 1)]

theorem reindex_idem (rows : List PRow) : reindexWrites (reindexRows rows) = 0 := by
  unfold reindexWrites reindexRows
  rw [withPos_map]
  rw [List.countP_eq_zero]
  intro a ha
  rcases List.mem_map.mp ha with ⟨ip, hip, rfl⟩
  simp only [rank, List.countP_map, sortKey_update, bne_iff_ne, ne_eq, Decidable.not_not]
  rfl

theorem keyLt_irrefl (x : (Nat × Nat) × Nat) : keyLt x x = false := by
  obtain ⟨⟨s, e⟩, p⟩ := x
  simp [keyLt]

theorem keyLt_trans (x y z : (Nat × Nat) × Nat) :
    keyLt x y = true → keyLt y z = true → keyLt x z = true := by
  obtain ⟨⟨s1, e1⟩, p1⟩ := x
  obtain ⟨⟨s2, e2⟩, p2⟩ := y
  obtain ⟨⟨s3, e3⟩, p3⟩ := z
  simp only [keyLt, Bool.or_eq_true, Bool.and_eq_true, decide_eq_true_eq, beq_iff_eq]
  omega

theorem countP_lt_of_mem {α : Type} (l : List α) (p q : α → Bool) (x : α)
    (hx : x ∈ l) (hq : q x = true) (hp : p x = false) (himp : ∀ y ∈ l, p y → q y) :
    l.countP p < l.countP q := by
  induction l with
  | nil => simp at hx
  | cons a l ih =>
    rw [List.countP_cons, List.countP_cons]
    rcases List.mem_cons.mp hx with rfl | hx2
    · have hle : l.countP p ≤ l.countP q :=
        List.countP_mono_left (fun y hy hpy => himp y (List.mem_cons_of_mem _ hy) hpy)
      rw [hq, hp]
      simp
      omega
    · have ha : p a → q a := himp a (List.mem_cons_self a l)
      have := ih hx2 (fun y hy hpy => himp y (List.mem_cons_of_mem _ hy) hpy)
      by_cases hpa : p a = true
      · rw [hpa, ha hpa]
        omega
      · rw [Bool.of_not_eq_true hpa]
        simp
        split <;> omega

theorem rank_strict_mono (tagged : List (Nat × PRow)) (pos1 pos2 : Nat) (p1 p2 : PRow)
    (h1 : (pos1, p1) ∈ tagged)
    (hlt : keyLt (sortKey p1, pos1) (sortKey p2, pos2) = true) :
    rank tagged pos1 p1 < rank tagged pos2 p2 := by
  unfold rank
  have := countP_lt_of_mem tagged
    (fun qr => keyLt (sortKey qr.2, qr.1) (sortKey p1, pos1))
    (fun qr => keyLt (sortKey qr.2, qr.1) (sortKey p2, pos2))
    (pos1, p1) h1 hlt (keyLt_irrefl _)
    (fun y hy hpy => keyLt_trans _ _ _ hpy hlt)
  omega

theorem withPos_update_times (g : Nat × PRow → Nat) :
    ∀ (l : List PRow) (n : Nat),
      ((withPos l n).map (fun ip => { ip.2 with index := g ip })).map
          (fun p => (p.starts_at, p.ends_at)) =
        l.map (fun p => (p.starts_at, p.ends_at)) := by
  intro l
  induction l with
  | nil => intro n; simp [withPos]
  | cons p ps ih => intro n; simp [withPos, ih (n + 1)]

theorem reindex_times (rows : List PRow) :
    (reindexRows rows).map (fun p => (p.starts_at, p.ends_at)) =
      rows.map (fun p => (p.starts_at, p.ends_at)) := by
  unfold reindexRows
  exact withPos_update_times (fun ip => rank (withPos rows 0) ip.1 ip.2) rows 0

/-- Period rows of the design document's reindex example: indices
    1, 3, 2 at times 09:00-09:45, 07:00-07:45, 08:00-08:45. -/
def ex6 : List PRow :=
  [⟨1, some 32400, some 35100⟩, ⟨3, some 25200, some 27900⟩, ⟨2, some 28800, some 31500⟩]

/-- C6: `day_reindex` assigns 1-based indices following the
    `(starts_at, ends_at)` stable sort order (a strictly smaller key at
    a row yields a strictly smaller new index), writes only the rows
    whose index changes, never alters any `starts_at`/`ends_at` and
    never touches break rows, and is idempotent: immediately re-running
    it performs zero writes.  On the example rows with indices `[1,3,2]`
    at times `09:00, 07:00, 08:00` the indices become `[3,1,2]` — i.e.
    `1,2,3` in chronological order — with two writes (the third row is
    already correct and is not written), and a second run writes
    nothing. -/
theorem reindex_correct :
    (∀ rows : List PRow, reindexWrites (reindexRows rows) = 0) ∧
    (∀ rows : List PRow, (reindexRows rows).map (fun p => (p.starts_at, p.ends_at)) =
      rows.map (fun p => (p.starts_at, p.ends_at))) ∧
    (∀ st : DayStore, (day_reindex st).1.breaks = st.breaks) ∧
    (∀ (tagged : List (Nat × PRow)) (pos1 pos2 : Nat) (p1 p2 : PRow),
      (pos1, p1) ∈ tagged →
      keyLt (sortKey p1, pos1) (sortKey p2, pos2) = true →
      rank tagged pos1 p1 < rank tagged pos2 p2) ∧
    reindexRows ex6 = [⟨3, some 32400, some 35100⟩, ⟨1, some 25200, some 27900⟩,
      ⟨2, some 28800, some 31500⟩] ∧
    reindexWrites ex6 = 2 ∧ reindexWrites (reindexRows ex6) = 0 :=
  ⟨reindex_idem, reindex_times, fun _ => rfl,
   fun tagged pos1 pos2 p1 p2 h1 hlt => rank_strict_mono tagged pos1 pos2 p1 p2 h1 hlt,
   by decide, by decide, by decide⟩

theorem reindex_correct_witness :
    rank (withPos ex6 0) 1 ⟨3, some 25200, some 27900⟩ <
      rank (withPos ex6 0) 0 ⟨1, some 32400, some 35100⟩ :=
  reindex_correct.2.2.2.1 (withPos ex6 0) 1 0 ⟨3, some 25200, some 27900⟩
    ⟨1, some 32400, some 35100⟩ (by decide) (by decide)

end School
